import Mathlib

/-!
Verification development for the wsl-bridge repository (a WSL-to-Windows
portproxy auto-forwarder written in Rust).  The Rust sources are shallowly
embedded: pure functions become Lean functions; the external shell, the
filesystem, the two discovery probes and the HTTP client become explicit
oracle parameters; command handlers return their result together with the
list of side effects they would perform, in order.
-/

namespace WslBridge

deriving instance DecidableEq for Except

/-! ## Port parsing (Rust `str::parse::<u16>` semantics)

Rust's `u16: FromStr` accepts an optional leading plus sign followed by one
or more ASCII digits; the empty string, any other character, and values
above 65535 are errors.  Modelled on `List Char`. -/

def digitsVal (digits : List Char) : ℕ :=
  digits.foldl (fun acc c => acc * 10 + (c.toNat - 48)) 0

def parseDigits (digits : List Char) : Option Nat :=
  if digits = [] then none
  else if digits.all (fun c => c.isDigit) then
    if digitsVal digits ≤ 65535 then some (digitsVal digits) else none
  else none

def parseU16 (cs : List Char) : Option Nat :=
  parseDigits (match cs with
    | '+' :: rest => rest
    | other => other)

/-! ## src/detector.rs: `extract_ports_from_string`

The source first tries `input.strip_prefix(':')` and, when the remainder
parses as a nonzero u16, returns that single port.  Otherwise it takes the
substring after the last colon (`input.rfind(':')`), strips trailing
slashes (`trim_end_matches('/')`) and keeps the value when it parses as a
nonzero u16. -/

def portFromColonStart (input : List Char) : Option Nat :=
  match input with
  | ':' :: stripped =>
    match parseU16 stripped with
    | some p => if p ≠ 0 then some p else none
    | none => none
  | _ => none

def afterLastColon : List Char → Option (List Char)
  | [] => none
  | c :: rest =>
    match afterLastColon rest with
    | some suf => some suf
    | none => if c = ':' then some rest else none

def stripTrailingSlashes (cs : List Char) : List Char :=
  (cs.reverse.dropWhile (fun c => c = '/')).reverse

def extract_ports_from_string (input : List Char) : List Nat :=
  match portFromColonStart input with
  | some p => [p]
  | none =>
    match afterLastColon input with
    | some suffixChars =>
      match parseU16 (stripTrailingSlashes suffixChars) with
      | some p => if p ≠ 0 then [p] else []
      | none => []
    | none => []

/-! ## src/detector.rs: the JSON tree and `collect_ports_from_json`

`serde_json::Value` is modelled as a tree; numbers are modelled as
integers (`Value::as_u64` answers only for non-negative integers). -/

inductive Json where
  | null
  | bool (b : Bool)
  | num (n : Int)
  | str (s : List Char)
  | arr (items : List Json)
  | obj (entries : List (List Char × Json))

def json_as_u64 : Json → Option Nat
  | .num n => if 0 ≤ n then some n.toNat else none
  | _ => none

def json_as_str : Json → Option (List Char)
  | .str s => some s
  | _ => none

/-- src/detector.rs `to_valid_port`: `u16::try_from` then a nonzero check. -/
def to_valid_port (v : Nat) : Option Nat :=
  if v ≤ 65535 then
    if v = 0 then none else some v
  else none

/-- Rust `str::eq_ignore_ascii_case`. -/
def asciiLower (c : Char) : Char :=
  if 'A' ≤ c ∧ c ≤ 'Z' then Char.ofNat (c.toNat + 32) else c

def eq_ignore_ascii_case (s t : List Char) : Bool :=
  s.map asciiLower = t.map asciiLower

def isPortKey (k : List Char) : Bool :=
  eq_ignore_ascii_case k "port".toList || eq_ignore_ascii_case k "listen_port".toList

def isAddrKey (k : List Char) : Bool :=
  eq_ignore_ascii_case k "listen".toList || eq_ignore_ascii_case k "address".toList

/-- The ports contributed directly by one object entry `(k, v)`:
the `port` / `listen_port` numeric rule and the `listen` / `address`
string rule of `collect_ports_from_json` (before recursing into `v`). -/
def entryPorts (k : List Char) (v : Json) : List Nat :=
  (if isPortKey k then
    match (json_as_u64 v).bind to_valid_port with
    | some p => [p]
    | none => []
  else []) ++
  (if isAddrKey k then
    match json_as_str v with
    | some s => extract_ports_from_string s
    | none => []
  else [])

mutual

def collect_ports_from_json : Json → List Nat
  | .null => []
  | .bool _ => []
  | .num _ => []
  | .str s => extract_ports_from_string s
  | .arr items => collectArr items
  | .obj entries => collectObj entries

def collectArr : List Json → List Nat
  | [] => []
  | j :: rest => collect_ports_from_json j ++ collectArr rest

def collectObj : List (List Char × Json) → List Nat
  | [] => []
  | (k, v) :: rest => entryPorts k v ++ collect_ports_from_json v ++ collectObj rest

end

/-! ## src/config.rs: `PortsConfig`

`BTreeSet<u16>` is modelled as `Finset ℕ`; `insert` / `remove` report
whether the element was newly inserted / was present, as in the source. -/

structure PortsConfig where
  manual_ports : Finset ℕ
  pm2_ports : Finset ℕ
  caddy_ports : Finset ℕ
deriving DecidableEq

def PortsConfig.default : PortsConfig := ⟨∅, ∅, ∅⟩

def all_ports (cfg : PortsConfig) : Finset ℕ :=
  cfg.manual_ports ∪ cfg.pm2_ports ∪ cfg.caddy_ports

def add_manual_port (cfg : PortsConfig) (port : ℕ) : PortsConfig × Bool :=
  ({ cfg with manual_ports := insert port cfg.manual_ports },
   decide (port ∉ cfg.manual_ports))

def remove_manual_port (cfg : PortsConfig) (port : ℕ) : PortsConfig × Bool :=
  ({ cfg with manual_ports := cfg.manual_ports.erase port },
   decide (port ∈ cfg.manual_ports))

def set_detected_ports (cfg : PortsConfig) (pm2 caddy : Finset ℕ) : PortsConfig :=
  { cfg with pm2_ports := pm2, caddy_ports := caddy }

/-! ## src/config.rs: `load_or_default`

The config file on disk is an oracle: missing, unreadable, or readable
with some raw content; TOML parsing of raw content is a second oracle. -/

inductive FileState where
  | missing
  | unreadable (msg : List Char)
  | content (raw : List Char)

def load_or_default (fs : FileState)
    (parseToml : List Char → Except (List Char) PortsConfig) :
    Except (List Char) PortsConfig :=
  match fs with
  | .missing => .ok PortsConfig.default
  | .unreadable msg => .error msg
  | .content raw =>
    match parseToml raw with
    | .ok cfg => .ok cfg
    | .error e => .error e

/-! ## src/detector.rs: the two probes and `detect_ports`

Each probe's external interaction is an oracle:
for pm2, whether `pm2 jlist` launched and, when it did, its exit status
and captured stdout; for caddy, whether the HTTP GET succeeded and, when
it did, whether the status was 2xx and the body; JSON parsing of the
captured text is a further oracle. -/

inductive ProcOutcome where
  | launchFailed
  | exited (success : Bool) (stdout : List Char)

inductive HttpOutcome where
  | connectFailed
  | responded (ok2xx : Bool) (body : List Char)

def detect_pm2_ports (proc : ProcOutcome)
    (parseJson : List Char → Option Json) : Except (List Char) (Finset ℕ) :=
  match proc with
  | .launchFailed => .error "failed to execute pm2 jlist".toList
  | .exited false _ => .error "pm2 jlist exited with failure".toList
  | .exited true out =>
    match parseJson out with
    | none => .error "invalid pm2 json".toList
    | some v => .ok (collect_ports_from_json v).toFinset

def detect_caddy_ports (http : HttpOutcome)
    (parseJson : List Char → Option Json) : Except (List Char) (Finset ℕ) :=
  match http with
  | .connectFailed => .error "failed requesting caddy config".toList
  | .responded false _ => .error "caddy config returned error status".toList
  | .responded true body =>
    match parseJson body with
    | none => .error "invalid caddy config json".toList
    | some v => .ok (collect_ports_from_json v).toFinset

/-- `detect_ports`: each probe's failure is swallowed into an empty set
(`unwrap_or_else`), and the caller always receives the pair. -/
def detect_ports (pm2Proc : ProcOutcome) (pm2Parse : List Char → Option Json)
    (caddyHttp : HttpOutcome) (caddyParse : List Char → Option Json) :
    Finset ℕ × Finset ℕ :=
  let pm2 := match detect_pm2_ports pm2Proc pm2Parse with
    | .ok s => s
    | .error _ => ∅
  let caddy := match detect_caddy_ports caddyHttp caddyParse with
    | .ok s => s
    | .error _ => ∅
  (pm2, caddy)

/-! ## src/windows.rs: `run_powershell` and `apply_portproxy_rules`

The powershell invocations are instrumented: every netsh command issued is
recorded in a trace, in order.  The shell is an oracle mapping each
command to its execution result. -/

structure Ipv4 where
  a : ℕ
  b : ℕ
  c : ℕ
  d : ℕ
deriving DecidableEq

inductive NetshCmd where
  | delete (listenPort : ℕ)
  | add (listenPort : ℕ) (connectAddr : Ipv4)
deriving DecidableEq

def NetshCmd.port : NetshCmd → ℕ
  | .delete p => p
  | .add p _ => p

/-- Mirrors `command.contains("portproxy delete")` on the formatted
command strings of `apply_portproxy_rules`. -/
def NetshCmd.isDelete : NetshCmd → Bool
  | .delete _ => true
  | .add _ _ => false

inductive ExecResult where
  | launchFailed (msg : List Char)
  | exited (success : Bool) (stderrMsg : List Char)

def run_powershell (res : ExecResult) (cmd : NetshCmd) : Except (List Char) Unit :=
  match res with
  | .launchFailed msg => .error msg
  | .exited true _ => .ok ()
  | .exited false stderrMsg =>
    if cmd.isDelete then .ok () else .error stderrMsg

/-- Outcome of the delete command for one port under a given shell.  In
the source this outcome is computed and then discarded
(`let _ = run_powershell(...)`), so nothing downstream depends on it. -/
def deleteResult (exec : NetshCmd → ExecResult) (p : ℕ) :
    Except (List Char) Unit :=
  run_powershell (exec (NetshCmd.delete p)) (NetshCmd.delete p)

/-- Outcome of the add command for one port under a given shell. -/
def addResult (exec : NetshCmd → ExecResult) (ip : Ipv4) (p : ℕ) :
    Except (List Char) Unit :=
  run_powershell (exec (NetshCmd.add p ip)) (NetshCmd.add p ip)

/-- `apply_portproxy_rules`, returning the source's `Result` together with
the trace of netsh commands issued.  Per port: the delete command is
issued first and recorded in the trace, its outcome discarded
(`let _ = run_powershell(...)` in the source, `deleteResult` here); then
the add command is issued, its failure propagated (`?`), aborting the
remaining ports. -/
def apply_portproxy_rules (exec : NetshCmd → ExecResult) (wsl_ip : Ipv4) :
    List ℕ → Except (List Char) Unit × List NetshCmd
  | [] => (.ok (), [])
  | port :: rest =>
    match addResult exec wsl_ip port with
    | .error e => (.error e, [NetshCmd.delete port, NetshCmd.add port wsl_ip])
    | .ok () =>
      ((apply_portproxy_rules exec wsl_ip rest).1,
       NetshCmd.delete port :: NetshCmd.add port wsl_ip ::
         (apply_portproxy_rules exec wsl_ip rest).2)

/-! ## src/main.rs: `cmd_daemon` loop body

`cmd_daemon` keeps `last_ip : Option<Ipv4Addr>` (initially `None`) and
`last_ports : BTreeSet<u16>` (initially empty).  One traversal of the
loop body reloads the registry, runs the probes, persists, resolves the
WSL ip, computes `all_ports`, and invokes `apply_portproxy_rules` only
when the `(ip, ports)` pair differs from the stored one; the stored pair
is overwritten just after a successful application.  The claims about the
loop concern the change check and the state update, so the cycle is
modelled from the point where `(ip, ports)` has been computed; load, save
and ip-resolution failures end the loop before that point and therefore
before any invocation. -/

structure DaemonState where
  last_ip : Option Ipv4
  last_ports : Finset ℕ
deriving DecidableEq

def initialDaemonState : DaemonState := ⟨none, ∅⟩

/-- The `changed` test of `cmd_daemon`: `last_ip != Some(ip) || last_ports != ports`. -/
def daemonChanged (st : DaemonState) (ip : Ipv4) (ports : Finset ℕ) : Bool :=
  decide (st.last_ip ≠ some ip) || decide (st.last_ports ≠ ports)

/-- One pass of the `cmd_daemon` loop from the point where `(ip, ports)`
has been computed.  Returns the updated state and whether the Rule
Synchronizer was invoked, or the fatal error that ends the loop. -/
def daemonCycle (exec : NetshCmd → ExecResult) (st : DaemonState)
    (ip : Ipv4) (ports : Finset ℕ) :
    Except (List Char) (DaemonState × Bool) :=
  if daemonChanged st ip ports then
    match (apply_portproxy_rules exec ip (ports.sort (· ≤ ·))).1 with
    | .error e => .error e
    | .ok () => .ok (⟨some ip, ports⟩, true)
  else .ok (st, false)

/-! ## src/main.rs: `cmd_add` / `cmd_remove` with their effect traces

Every externally visible action of the handlers is recorded in order:
reading the config file, running each probe, writing the config file,
resolving the WSL ip, and each netsh command.  `ensure_valid_port` runs
before any of them. -/

inductive Effect where
  | readConfig
  | probePm2
  | probeCaddy
  | writeConfig
  | resolveIp
  | shell (cmd : NetshCmd)
deriving DecidableEq

/-- The external world a command handler interacts with. -/
structure Env where
  configFile : FileState
  parseToml : List Char → Except (List Char) PortsConfig
  pm2Proc : ProcOutcome
  pm2Parse : List Char → Option Json
  caddyHttp : HttpOutcome
  caddyParse : List Char → Option Json
  saveResult : Except (List Char) Unit
  ipResult : Except (List Char) Ipv4
  exec : NetshCmd → ExecResult

def ensure_valid_port (port : ℕ) : Except (List Char) Unit :=
  if port = 0 then .error "port 0 is invalid".toList else .ok ()

/-- `sync_current_config`: resolve the WSL ip, then apply the sorted
all-ports list. -/
def sync_current_config (env : Env) (cfg : PortsConfig) :
    Except (List Char) Unit × List Effect :=
  match env.ipResult with
  | .error e => (.error e, [.resolveIp])
  | .ok ip =>
    let ports := (all_ports cfg).sort (· ≤ ·)
    let (res, trace) := apply_portproxy_rules env.exec ip ports
    (res, .resolveIp :: trace.map Effect.shell)

/-- The shared tail of `cmd_add` / `cmd_remove` after the manual-set
mutation: detect, set detected, save, sync. -/
def detectSaveSync (env : Env) (cfg : PortsConfig) :
    Except (List Char) Unit × List Effect :=
  let (pm2, caddy) := detect_ports env.pm2Proc env.pm2Parse env.caddyHttp env.caddyParse
  let cfg := set_detected_ports cfg pm2 caddy
  match env.saveResult with
  | .error e => (.error e, [.probePm2, .probeCaddy, .writeConfig])
  | .ok () =>
    let (res, trace) := sync_current_config env cfg
    (res, .probePm2 :: .probeCaddy :: .writeConfig :: trace)

def cmd_add (env : Env) (port : ℕ) : Except (List Char) Unit × List Effect :=
  match ensure_valid_port port with
  | .error e => (.error e, [])
  | .ok () =>
    match load_or_default env.configFile env.parseToml with
    | .error e => (.error e, [.readConfig])
    | .ok cfg =>
      let (cfg, _inserted) := add_manual_port cfg port
      let (res, trace) := detectSaveSync env cfg
      (res, .readConfig :: trace)

def cmd_remove (env : Env) (port : ℕ) : Except (List Char) Unit × List Effect :=
  match ensure_valid_port port with
  | .error e => (.error e, [])
  | .ok () =>
    match load_or_default env.configFile env.parseToml with
    | .error e => (.error e, [.readConfig])
    | .ok cfg =>
      let (cfg, _removed) := remove_manual_port cfg port
      let (res, trace) := detectSaveSync env cfg
      (res, .readConfig :: trace)

/-! ## Helper lemmas: string-port extraction -/

theorem parseDigits_le {cs : List Char} {p : ℕ} (h : parseDigits cs = some p) :
    p ≤ 65535 := by
  unfold parseDigits at h
  split at h
  · exact absurd h (by simp)
  · split at h
    · split at h
      · next hv => exact Option.some.inj h ▸ hv
      · exact absurd h (by simp)
    · exact absurd h (by simp)

theorem parseU16_le {cs : List Char} {p : ℕ} (h : parseU16 cs = some p) :
    p ≤ 65535 :=
  parseDigits_le h

theorem portFromColonStart_ne_zero {cs : List Char} {p : ℕ}
    (h : portFromColonStart cs = some p) : p ≠ 0 := by
  unfold portFromColonStart at h
  split at h
  · split at h
    · split at h
      · simp_all
      · exact absurd h (by simp)
    · exact absurd h (by simp)
  · exact absurd h (by simp)

theorem mem_extract_bounds {s : List Char} {p : ℕ}
    (h : p ∈ extract_ports_from_string s) : p ≠ 0 ∧ p ≤ 65535 := by
  unfold extract_ports_from_string at h
  split at h
  · next q hq =>
    have hz := portFromColonStart_ne_zero hq
    have hle : q ≤ 65535 := by
      unfold portFromColonStart at hq
      split at hq
      · split at hq
        · next hp =>
          split at hq
          · exact Option.some.inj hq ▸ parseU16_le hp
          · exact absurd hq (by simp)
        · exact absurd hq (by simp)
      · exact absurd hq (by simp)
    simp at h
    exact h ▸ ⟨hz, hle⟩
  · split at h
    · split at h
      · next q hq =>
        split at h
        · simp at h
          exact h ▸ ⟨by assumption, parseU16_le hq⟩
        · exact absurd h (by simp)
      · exact absurd h (by simp)
    · exact absurd h (by simp)

theorem zero_not_mem_extract (s : List Char) :
    0 ∉ extract_ports_from_string s := by
  intro h
  exact (mem_extract_bounds h).1 rfl

theorem afterLastColon_eq_none {cs : List Char} :
    afterLastColon cs = none ↔ ':' ∉ cs := by
  induction cs with
  | nil => simp [afterLastColon]
  | cons c rest ih =>
    unfold afterLastColon
    cases h : afterLastColon rest with
    | some suf =>
      simp only []
      constructor
      · intro hc; exact absurd hc (by simp)
      · intro hc
        exact absurd (ih.mpr (by simp at hc; exact hc.2)) (by simp [h])
    | none =>
      have hrest : ':' ∉ rest := ih.mp h
      by_cases hc : c = ':'
      · simp [hc]
      · simp [hc, hrest, Ne.symm hc]

theorem afterLastColon_append {pre suf : List Char} (hsuf : ':' ∉ suf) :
    afterLastColon (pre ++ ':' :: suf) = some suf := by
  induction pre with
  | nil =>
    simp only [List.nil_append]
    unfold afterLastColon
    rw [afterLastColon_eq_none.mpr hsuf]
    simp
  | cons c pre ih =>
    simp only [List.cons_append]
    unfold afterLastColon
    rw [ih]

/-- The prefix rule of `extract_ports_from_string` does not fire: either
the string does not start with a colon, or what follows the colon does
not parse as a nonzero u16. -/
def noColonStartPort (cs : List Char) : Prop :=
  ∀ rest, cs = ':' :: rest → ∀ p, parseU16 rest = some p → p = 0

theorem portFromColonStart_eq_none {cs : List Char} (h : noColonStartPort cs) :
    portFromColonStart cs = none := by
  unfold portFromColonStart
  split
  · next rest =>
    cases hp : parseU16 rest with
    | none => rfl
    | some p => simp [h rest rfl p hp]
  · rfl

/-- C3: string-port extraction.  The four concrete examples of the spec;
a string starting with a colon whose remainder parses as a nonzero u16
yields exactly that port and the suffix rule is skipped; a string without
a colon yields nothing; otherwise the text after the last colon, with
trailing slashes stripped, is the single candidate iff it parses as a
nonzero u16. -/
theorem claim_C3_string_port_extraction :
    (extract_ports_from_string ":8080".toList = [8080]) ∧
    (extract_ports_from_string "0.0.0.0:3000/".toList = [3000]) ∧
    (extract_ports_from_string "no-colon-here".toList = []) ∧
    (extract_ports_from_string ":0".toList = []) ∧
    (∀ rest p, parseU16 rest = some p → p ≠ 0 →
       extract_ports_from_string (':' :: rest) = [p]) ∧
    (∀ cs, ':' ∉ cs → extract_ports_from_string cs = []) ∧
    (∀ pre suf p, noColonStartPort (pre ++ ':' :: suf) → ':' ∉ suf →
       parseU16 (stripTrailingSlashes suf) = some p → p ≠ 0 →
       extract_ports_from_string (pre ++ ':' :: suf) = [p]) ∧
    (∀ pre suf, noColonStartPort (pre ++ ':' :: suf) → ':' ∉ suf →
       (∀ p, parseU16 (stripTrailingSlashes suf) = some p → p = 0) →
       extract_ports_from_string (pre ++ ':' :: suf) = []) := by
  refine ⟨by decide, by decide, by decide, by decide, ?_, ?_, ?_, ?_⟩
  · intro rest p hp hz
    unfold extract_ports_from_string portFromColonStart
    simp [hp, hz]
  · intro cs hc
    have h1 : portFromColonStart cs = none := by
      unfold portFromColonStart
      split
      · next rest => simp at hc
      · rfl
    unfold extract_ports_from_string
    rw [h1, afterLastColon_eq_none.mpr hc]
  · intro pre suf p hnc hns hp hz
    unfold extract_ports_from_string
    rw [portFromColonStart_eq_none hnc, afterLastColon_append hns]
    simp [hp, hz]
  · intro pre suf hnc hns hp
    unfold extract_ports_from_string
    rw [portFromColonStart_eq_none hnc, afterLastColon_append hns]
    cases hq : parseU16 (stripTrailingSlashes suf) with
    | none => simp [hq]
    | some q => simp [hq, hp q hq]

theorem claim_C3_witness :
    extract_ports_from_string (':' :: "9090".toList) = [9090] ∧
    extract_ports_from_string "nocolon".toList = [] ∧
    extract_ports_from_string ("a".toList ++ ':' :: "8000//".toList) = [8000] ∧
    extract_ports_from_string ("a".toList ++ ':' :: "0".toList) = [] := by
  refine ⟨claim_C3_string_port_extraction.2.2.2.2.1 "9090".toList 9090 (by decide) (by decide),
    claim_C3_string_port_extraction.2.2.2.2.2.1 "nocolon".toList (by decide),
    claim_C3_string_port_extraction.2.2.2.2.2.2.1 "a".toList "8000//".toList 8000
      ?_ (by decide) (by decide) (by decide),
    claim_C3_string_port_extraction.2.2.2.2.2.2.2 "a".toList "0".toList
      ?_ (by decide) ?_⟩
  · intro rest h p hp
    simp at h
  · intro rest h p hp
    simp at h
  · intro p hp
    have h0 : parseU16 (stripTrailingSlashes "0".toList) = some 0 := by decide
    rw [h0] at hp
    exact (Option.some.inj hp).symm

/-! ## C4: claim-side predicates over the document tree and an induction
principle for the nested `Json` type -/

/-- `p` occurs somewhere in the document as the numeric value of a key
matching `port` / `listen_port` case-insensitively. -/
inductive HasPortKey : Json → ℕ → Prop where
  | here {entries : List (List Char × Json)} {k : List Char} {p : ℕ} :
      (k, Json.num (p : ℤ)) ∈ entries → isPortKey k = true →
      HasPortKey (.obj entries) p
  | inObj {entries : List (List Char × Json)} {k : List Char} {v : Json} {p : ℕ} :
      (k, v) ∈ entries → HasPortKey v p → HasPortKey (.obj entries) p
  | inArr {items : List Json} {j : Json} {p : ℕ} :
      j ∈ items → HasPortKey j p → HasPortKey (.arr items) p

/-- `s` occurs somewhere in the document as a string value. -/
inductive HasString : Json → List Char → Prop where
  | here {s : List Char} : HasString (.str s) s
  | inObj {entries : List (List Char × Json)} {k : List Char} {v : Json} {s : List Char} :
      (k, v) ∈ entries → HasString v s → HasString (.obj entries) s
  | inArr {items : List Json} {j : Json} {s : List Char} :
      j ∈ items → HasString j s → HasString (.arr items) s

theorem sizeOf_val_lt_of_mem {k : List Char} {v : Json}
    {entries : List (List Char × Json)} (h : (k, v) ∈ entries) :
    sizeOf v < sizeOf entries := by
  have h1 : sizeOf (k, v) < sizeOf entries := List.sizeOf_lt_of_mem h
  have h2 : sizeOf (k, v) = 1 + sizeOf k + sizeOf v := rfl
  omega

theorem json_induction (P : Json → Prop)
    (hnull : P .null) (hbool : ∀ b, P (.bool b))
    (hnum : ∀ n, P (.num n)) (hstr : ∀ s, P (.str s))
    (harr : ∀ items, (∀ j ∈ items, P j) → P (.arr items))
    (hobj : ∀ entries, (∀ k v, (k, v) ∈ entries → P v) → P (.obj entries)) :
    ∀ j, P j := by
  have key : ∀ (n : ℕ) (j : Json), sizeOf j ≤ n → P j := by
    intro n
    induction n with
    | zero =>
      intro j hj
      exfalso
      cases j <;> simp at hj
    | succ n ih =>
      intro j hj
      cases j with
      | null => exact hnull
      | bool b => exact hbool b
      | num m => exact hnum m
      | str s => exact hstr s
      | arr items =>
        refine harr items (fun j hmem => ih j ?_)
        have h1 : sizeOf j < sizeOf items := List.sizeOf_lt_of_mem hmem
        have h2 : sizeOf (Json.arr items) = 1 + sizeOf items := by simp
        omega
      | obj entries =>
        refine hobj entries (fun k v hmem => ih v ?_)
        have h1 : sizeOf v < sizeOf entries := sizeOf_val_lt_of_mem hmem
        have h2 : sizeOf (Json.obj entries) = 1 + sizeOf entries := by simp
        omega
  exact fun j => key (sizeOf j) j le_rfl

theorem mem_collectArr {p : ℕ} {items : List Json} :
    p ∈ collectArr items ↔ ∃ j ∈ items, p ∈ collect_ports_from_json j := by
  induction items with
  | nil => simp [collectArr]
  | cons j rest ih => simp [collectArr, List.mem_append, ih]

theorem mem_collectObj {p : ℕ} {entries : List (List Char × Json)} :
    p ∈ collectObj entries ↔
      ∃ k v, (k, v) ∈ entries ∧
        (p ∈ entryPorts k v ∨ p ∈ collect_ports_from_json v) := by
  induction entries with
  | nil => simp [collectObj]
  | cons e rest ih =>
    obtain ⟨k, v⟩ := e
    simp only [collectObj, List.mem_append, ih, List.mem_cons]
    constructor
    · rintro ((h | h) | ⟨k1, v1, hmem, hor⟩)
      · exact ⟨k, v, Or.inl rfl, Or.inl h⟩
      · exact ⟨k, v, Or.inl rfl, Or.inr h⟩
      · exact ⟨k1, v1, Or.inr hmem, hor⟩
    · rintro ⟨k1, v1, (heq | hmem), hor⟩
      · cases heq
        rcases hor with h | h
        · exact Or.inl (Or.inl h)
        · exact Or.inl (Or.inr h)
      · exact Or.inr ⟨k1, v1, hmem, hor⟩

theorem json_as_u64_eq_some {v : Json} {u : ℕ} (h : json_as_u64 v = some u) :
    v = Json.num (u : ℤ) := by
  cases v with
  | num n =>
    simp only [json_as_u64] at h
    by_cases hn : (0 : ℤ) ≤ n
    · rw [if_pos hn] at h
      have h2 := Option.some.inj h
      have hnu : n = (u : ℤ) := by omega
      rw [hnu]
    · rw [if_neg hn] at h
      exact absurd h (by simp)
  | null => exact absurd h (by simp [json_as_u64])
  | bool b => exact absurd h (by simp [json_as_u64])
  | str s => exact absurd h (by simp [json_as_u64])
  | arr items => exact absurd h (by simp [json_as_u64])
  | obj entries => exact absurd h (by simp [json_as_u64])

theorem to_valid_port_eq_some {u p : ℕ} (h : to_valid_port u = some p) :
    p = u ∧ p ≠ 0 ∧ p ≤ 65535 := by
  unfold to_valid_port at h
  split at h
  · split at h
    · exact absurd h (by simp)
    · next hu =>
      have := Option.some.inj h
      omega
  · exact absurd h (by simp)

theorem mem_entryPorts_of_portKey {k : List Char} {p : ℕ}
    (hk : isPortKey k = true) (hz : p ≠ 0) (hle : p ≤ 65535) :
    p ∈ entryPorts k (Json.num (p : ℤ)) := by
  unfold entryPorts
  rw [List.mem_append]
  left
  have h1 : json_as_u64 (Json.num (p : ℤ)) = some p := by
    simp [json_as_u64]
  have h2 : (json_as_u64 (Json.num (p : ℤ))).bind to_valid_port = some p := by
    rw [h1]
    simp [Option.bind, to_valid_port, hz, hle]
  simp [hk, h2]

theorem mem_entryPorts_cases {k : List Char} {v : Json} {p : ℕ}
    (h : p ∈ entryPorts k v) :
    (isPortKey k = true ∧ v = Json.num (p : ℤ) ∧ p ≠ 0 ∧ p ≤ 65535) ∨
    (∃ s, v = Json.str s ∧ p ∈ extract_ports_from_string s) := by
  unfold entryPorts at h
  rw [List.mem_append] at h
  rcases h with h | h
  · left
    split at h
    · next hk =>
      cases hv : (json_as_u64 v).bind to_valid_port with
      | none => rw [hv] at h; simp at h
      | some q =>
        rw [hv] at h
        simp at h
        subst h
        rcases Option.bind_eq_some.mp hv with ⟨u, hu, hvp⟩
        rcases to_valid_port_eq_some hvp with ⟨hpu, hz, hle⟩
        subst hpu
        exact ⟨hk, json_as_u64_eq_some hu, hz, hle⟩
    · simp at h
  · right
    split at h
    · cases hv : json_as_str v with
      | none => rw [hv] at h; simp at h
      | some s =>
        rw [hv] at h
        refine ⟨s, ?_, h⟩
        cases v <;> simp [json_as_str] at hv
        rw [hv]
    · simp at h

/-- C4: over any document tree, every nonzero 16-bit value stored under a
key case-insensitively equal to `port` or `listen_port` is collected; the
value 0 is never collected; and every collected port comes either from
such a key or from the string-port extraction rule applied to some string
in the document — numeric values under other keys contribute nothing. -/
theorem claim_C4_collect_ports :
    (∀ j p, HasPortKey j p → p ≠ 0 → p ≤ 65535 → p ∈ collect_ports_from_json j) ∧
    (∀ j, 0 ∉ collect_ports_from_json j) ∧
    (∀ j p, p ∈ collect_ports_from_json j →
       HasPortKey j p ∨ ∃ s, HasString j s ∧ p ∈ extract_ports_from_string s) := by
  refine ⟨?_, ?_, ?_⟩
  · intro j p h hz hle
    induction h with
    | here hmem hk =>
      simp only [collect_ports_from_json]
      exact mem_collectObj.mpr ⟨_, _, hmem, Or.inl (mem_entryPorts_of_portKey hk hz hle)⟩
    | inObj hmem hv ih =>
      simp only [collect_ports_from_json]
      exact mem_collectObj.mpr ⟨_, _, hmem, Or.inr (ih hz hle)⟩
    | inArr hmem hj ih =>
      simp only [collect_ports_from_json]
      exact mem_collectArr.mpr ⟨_, hmem, ih hz hle⟩
  · intro j
    induction j using json_induction with
    | hnull => simp [collect_ports_from_json]
    | hbool b => simp [collect_ports_from_json]
    | hnum n => simp [collect_ports_from_json]
    | hstr s =>
      simp only [collect_ports_from_json]
      exact zero_not_mem_extract s
    | harr items ih =>
      simp only [collect_ports_from_json]
      intro h0
      rcases mem_collectArr.mp h0 with ⟨j, hj, hmem⟩
      exact ih j hj hmem
    | hobj entries ih =>
      simp only [collect_ports_from_json]
      intro h0
      rcases mem_collectObj.mp h0 with ⟨k, v, hmem, hcase⟩
      rcases hcase with he | hc
      · rcases mem_entryPorts_cases he with ⟨_, _, hz, _⟩ | ⟨s, _, hps⟩
        · exact hz rfl
        · exact zero_not_mem_extract s hps
      · exact ih k v hmem hc
  · intro j
    induction j using json_induction with
    | hnull => intro p hp; simp [collect_ports_from_json] at hp
    | hbool b => intro p hp; simp [collect_ports_from_json] at hp
    | hnum n => intro p hp; simp [collect_ports_from_json] at hp
    | hstr s =>
      intro p hp
      simp only [collect_ports_from_json] at hp
      exact Or.inr ⟨s, HasString.here, hp⟩
    | harr items ih =>
      intro p hp
      simp only [collect_ports_from_json] at hp
      rcases mem_collectArr.mp hp with ⟨j, hj, hmem⟩
      rcases ih j hj p hmem with h | ⟨s, hs, hps⟩
      · exact Or.inl (HasPortKey.inArr hj h)
      · exact Or.inr ⟨s, HasString.inArr hj hs, hps⟩
    | hobj entries ih =>
      intro p hp
      simp only [collect_ports_from_json] at hp
      rcases mem_collectObj.mp hp with ⟨k, v, hmem, hcase⟩
      rcases hcase with he | hc
      · rcases mem_entryPorts_cases he with ⟨hk, hv, _, _⟩ | ⟨s, hv, hps⟩
        · exact Or.inl (HasPortKey.here (hv ▸ hmem) hk)
        · exact Or.inr ⟨s, HasString.inObj hmem (hv ▸ HasString.here), hps⟩
      · rcases ih k v hmem p hc with h | ⟨s, hs, hps⟩
        · exact Or.inl (HasPortKey.inObj hmem h)
        · exact Or.inr ⟨s, HasString.inObj hmem hs, hps⟩

def sampleDoc : Json :=
  Json.obj [("Port".toList, Json.num 8080), ("other".toList, Json.num 9999)]

theorem claim_C4_witness :
    (8080 ∈ collect_ports_from_json sampleDoc) ∧
    (HasPortKey sampleDoc 8080 ∨
      ∃ s, HasString sampleDoc s ∧ 8080 ∈ extract_ports_from_string s) := by
  have hmem : ("Port".toList, Json.num (8080 : ℤ)) ∈
      [("Port".toList, Json.num 8080), ("other".toList, Json.num 9999)] :=
    List.mem_cons_self _ _
  have hpk : HasPortKey sampleDoc 8080 := HasPortKey.here hmem (by decide)
  exact ⟨claim_C4_collect_ports.1 sampleDoc 8080 hpk (by decide) (by decide),
    claim_C4_collect_ports.2.2 sampleDoc 8080 (by decide)⟩

/-! ## C1 / C10: the Rule Synchronizer's command trace -/

/-- The full delete-then-add trace for a port list. -/
def perPortTrace (ip : Ipv4) : List ℕ → List NetshCmd
  | [] => []
  | p :: rest => NetshCmd.delete p :: NetshCmd.add p ip :: perPortTrace ip rest

theorem apply_all_ok (exec : NetshCmd → ExecResult) (ip : Ipv4)
    (ports : List ℕ) (h : ∀ p ∈ ports, addResult exec ip p = .ok ()) :
    apply_portproxy_rules exec ip ports = (.ok (), perPortTrace ip ports) := by
  induction ports with
  | nil => rfl
  | cons p rest ih =>
    have hp : addResult exec ip p = .ok () := h p (by simp)
    have hrest := ih (fun q hq => h q (by simp [hq]))
    unfold apply_portproxy_rules
    rw [hp, hrest]
    simp [perPortTrace]

theorem apply_aborts_at_first_add_failure (exec : NetshCmd → ExecResult)
    (ip : Ipv4) (good : List ℕ) (bad : ℕ) (rest : List ℕ)
    (hgood : ∀ p ∈ good, addResult exec ip p = .ok ())
    (hbad : addResult exec ip bad ≠ .ok ()) :
    apply_portproxy_rules exec ip (good ++ bad :: rest) =
      (addResult exec ip bad,
       perPortTrace ip good ++ [NetshCmd.delete bad, NetshCmd.add bad ip]) := by
  induction good with
  | nil =>
    simp only [List.nil_append, perPortTrace]
    cases hb : addResult exec ip bad with
    | ok u => exact absurd (by cases u; exact hb) hbad
    | error e =>
      unfold apply_portproxy_rules
      rw [hb]
  | cons p ptail ih =>
    have hp : addResult exec ip p = .ok () := hgood p (by simp)
    have htail := ih (fun q hq => hgood q (by simp [hq]))
    simp only [List.cons_append]
    unfold apply_portproxy_rules
    rw [hp, htail]
    simp [perPortTrace]

/-- C1: `apply_portproxy_rules` walks the port list in order, issuing
delete then add for each port; delete outcomes never influence anything;
the first failing add is returned as the operation's error and no further
command — delete or add — is issued for any later port.  With a healthy
shell every port gets its delete-add pair in list order. -/
theorem claim_C1_apply_order_and_abort :
    (∀ exec ip ports, (∀ p ∈ ports, addResult exec ip p = .ok ()) →
       apply_portproxy_rules exec ip ports = (.ok (), perPortTrace ip ports)) ∧
    (∀ exec ip good bad rest, (∀ p ∈ good, addResult exec ip p = .ok ()) →
       addResult exec ip bad ≠ .ok () →
       apply_portproxy_rules exec ip (good ++ bad :: rest) =
         (addResult exec ip bad,
          perPortTrace ip good ++ [NetshCmd.delete bad, NetshCmd.add bad ip])) :=
  ⟨apply_all_ok, apply_aborts_at_first_add_failure⟩

/-- A shell on which every command succeeds. -/
def execAllOk : NetshCmd → ExecResult := fun _ => .exited true []

/-- A shell on which the add for port 80 exits nonzero and every other
command succeeds. -/
def execFail80 : NetshCmd → ExecResult := fun c =>
  match c with
  | .add 80 _ => .exited false "denied".toList
  | _ => .exited true []

def ipW : Ipv4 := ⟨172, 20, 0, 2⟩

theorem claim_C1_witness :
    (apply_portproxy_rules execAllOk ipW [80, 443] =
      (.ok (), perPortTrace ipW [80, 443])) ∧
    (apply_portproxy_rules execFail80 ipW ([] ++ 80 :: [443]) =
      (addResult execFail80 ipW 80,
       perPortTrace ipW [] ++ [NetshCmd.delete 80, NetshCmd.add 80 ipW])) :=
  ⟨claim_C1_apply_order_and_abort.1 execAllOk ipW [80, 443] (fun p _ => rfl),
   claim_C1_apply_order_and_abort.2 execFail80 ipW [] 80 [443]
     (fun p hp => absurd hp (List.not_mem_nil p))
     (by simp [addResult, execFail80, run_powershell, NetshCmd.isDelete])⟩

/-- C10: the synchronizer issues commands only for ports in the given
list: the empty list issues nothing and succeeds, and every command in
any trace — delete or add — carries a listen port that is a member of the
list, so rules for ports outside the list are never touched. -/
theorem claim_C10_only_listed_ports :
    (∀ exec ip, apply_portproxy_rules exec ip [] = (.ok (), [])) ∧
    (∀ exec ip ports c, c ∈ (apply_portproxy_rules exec ip ports).2 →
       c.port ∈ ports) := by
  refine ⟨fun exec ip => rfl, ?_⟩
  intro exec ip ports
  induction ports with
  | nil => intro c hc; exact absurd hc (by simp [apply_portproxy_rules])
  | cons p rest ih =>
    intro c hc
    unfold apply_portproxy_rules at hc
    cases hr : addResult exec ip p with
    | error e =>
      rw [hr] at hc
      simp at hc
      rcases hc with hc | hc <;> simp [hc, NetshCmd.port]
    | ok u =>
      cases u
      rw [hr] at hc
      simp at hc
      rcases hc with hc | hc | hc
      · simp [hc, NetshCmd.port]
      · simp [hc, NetshCmd.port]
      · exact List.mem_cons_of_mem p (ih c hc)

theorem claim_C10_witness :
    NetshCmd.port (NetshCmd.delete 80) ∈ [80, 443] :=
  claim_C10_only_listed_ports.2 execAllOk ipW [80, 443] (NetshCmd.delete 80)
    (by decide)

/-! ## C2: daemon change detection -/

theorem daemonCycle_ok_state (exec : NetshCmd → ExecResult)
    (st : DaemonState) (ip : Ipv4) (ports : Finset ℕ)
    (st1 : DaemonState) (b1 : Bool)
    (h : daemonCycle exec st ip ports = .ok (st1, b1)) :
    st1.last_ip = some ip ∧ st1.last_ports = ports := by
  unfold daemonCycle at h
  split at h
  · next hch =>
    cases ha : (apply_portproxy_rules exec ip (ports.sort (· ≤ ·))).1 with
    | error e => rw [ha] at h; exact absurd h (by simp)
    | ok u =>
      cases u
      rw [ha] at h
      have h2 := Except.ok.inj h
      rw [show st1 = (⟨some ip, ports⟩ : DaemonState) from congrArg Prod.fst h2.symm]
      exact ⟨rfl, rfl⟩
  · next hch =>
    have h1 := Except.ok.inj h
    have hst : st1 = st := congrArg Prod.fst h1.symm
    unfold daemonChanged at hch
    simp at hch
    rw [hst]
    exact ⟨hch.1, hch.2⟩

/-- C2: the daemon loop state starts empty; after a completed cycle for a
pair `(ip, ports)`, a second cycle computing the same pair never invokes
the synchronizer (so it runs at most once across two identical
consecutive cycles); if either component differs, the second cycle's
change test fires and the synchronizer is invoked again; the stored state
is only ever overwritten together with a successful rule application. -/
theorem claim_C2_daemon_change_detection :
    (initialDaemonState.last_ip = none ∧ initialDaemonState.last_ports = ∅) ∧
    (∀ exec1 exec2 st ip ports st1 b1 st2 b2,
       daemonCycle exec1 st ip ports = .ok (st1, b1) →
       daemonCycle exec2 st1 ip ports = .ok (st2, b2) →
       b2 = false) ∧
    (∀ exec1 st ip1 ports1 ip2 ports2 st1 b1,
       daemonCycle exec1 st ip1 ports1 = .ok (st1, b1) →
       ip1 ≠ ip2 ∨ ports1 ≠ ports2 →
       daemonChanged st1 ip2 ports2 = true) ∧
    (∀ exec st ip ports st1 b1,
       daemonCycle exec st ip ports = .ok (st1, b1) →
       (st1 = st ∧ b1 = false) ∨
       (st1 = ⟨some ip, ports⟩ ∧ b1 = true ∧
        (apply_portproxy_rules exec ip (ports.sort (· ≤ ·))).1 = .ok ())) ∧
    (∀ exec st ip ports st2 b2,
       daemonChanged st ip ports = true →
       daemonCycle exec st ip ports = .ok (st2, b2) →
       b2 = true) := by
  refine ⟨⟨rfl, rfl⟩, ?_, ?_, ?_, ?_⟩
  · intro exec1 exec2 st ip ports st1 b1 st2 b2 h1 h2
    obtain ⟨hip, hports⟩ := daemonCycle_ok_state exec1 st ip ports st1 b1 h1
    have hch : daemonChanged st1 ip ports = false := by
      unfold daemonChanged
      simp [hip, hports]
    unfold daemonCycle at h2
    rw [hch] at h2
    simp at h2
    exact h2.2
  · intro exec1 st ip1 ports1 ip2 ports2 st1 b1 h1 hne
    obtain ⟨hip, hports⟩ := daemonCycle_ok_state exec1 st ip1 ports1 st1 b1 h1
    unfold daemonChanged
    rcases hne with hne | hne
    · simp [hip, hne]
    · simp [hports, hne]
  · intro exec st ip ports st1 b1 h
    unfold daemonCycle at h
    split at h
    · cases ha : (apply_portproxy_rules exec ip (ports.sort (· ≤ ·))).1 with
      | error e => rw [ha] at h; exact absurd h (by simp)
      | ok u =>
        cases u
        rw [ha] at h
        have h1 := Except.ok.inj h
        right
        exact ⟨congrArg Prod.fst h1.symm, congrArg Prod.snd h1.symm, rfl⟩
    · have h1 := Except.ok.inj h
      left
      exact ⟨congrArg Prod.fst h1.symm, congrArg Prod.snd h1.symm⟩
  · intro exec st ip ports st2 b2 hch h
    unfold daemonCycle at h
    rw [hch, if_pos rfl] at h
    cases ha : (apply_portproxy_rules exec ip (ports.sort (· ≤ ·))).1 with
    | error e => rw [ha] at h; exact absurd h (by simp)
    | ok u =>
      cases u
      rw [ha] at h
      exact (congrArg Prod.snd (Except.ok.inj h)).symm

def stW : DaemonState := ⟨some ipW, {80}⟩

theorem claim_C2_witness :
    (daemonCycle execAllOk initialDaemonState ipW {80} = .ok (stW, true)) ∧
    (daemonChanged stW ipW {80, 443} = true) ∧
    ((stW = initialDaemonState ∧ true = false) ∨
     (stW = ⟨some ipW, {80}⟩ ∧ true = true ∧
      (apply_portproxy_rules execAllOk ipW (({80} : Finset ℕ).sort (· ≤ ·))).1 = .ok ())) := by
  have hsort : (({80} : Finset ℕ).sort (· ≤ ·)) = [80] := Finset.sort_singleton _ 80
  have happ1 : (apply_portproxy_rules execAllOk ipW (({80} : Finset ℕ).sort (· ≤ ·))).1 =
      Except.ok () := by
    rw [hsort, apply_all_ok execAllOk ipW [80] (fun p _ => rfl)]
  have h1 : daemonCycle execAllOk initialDaemonState ipW {80} = .ok (stW, true) := by
    have hch : daemonChanged initialDaemonState ipW {80} = true := by decide
    unfold daemonCycle
    rw [hch, if_pos rfl, happ1]
    rfl
  refine ⟨h1, ?_, ?_⟩
  · exact claim_C2_daemon_change_detection.2.2.1 execAllOk initialDaemonState
      ipW {80} ipW {80, 443} stW true h1 (Or.inr (by decide))
  · exact claim_C2_daemon_change_detection.2.2.2.1 execAllOk initialDaemonState
      ipW {80} stW true h1

/-! ## C5 / C6: PortsConfig algebra -/

/-- C5 counterexample: for the config whose manual set is `{5}`, adding
manual port 5 and then removing it does NOT restore the manual set — the
port was already present, and the remove deletes it. -/
theorem claim_C5_counterexample :
    ¬ (((remove_manual_port (add_manual_port (⟨{5}, ∅, ∅⟩ : PortsConfig) 5).1 5).1).manual_ports
        = ({5} : Finset ℕ)) := by
  decide

/-- C5 (amended): `add_manual_port` then `remove_manual_port` on the same
port restores the manual set to its prior state, provided the port was
not already in the manual set. -/
theorem claim_C5_roundtrip_amended (cfg : PortsConfig) (port : ℕ)
    (h : port ∉ cfg.manual_ports) :
    ((remove_manual_port (add_manual_port cfg port).1 port).1).manual_ports
      = cfg.manual_ports := by
  simp [add_manual_port, remove_manual_port, Finset.erase_insert h]

theorem claim_C5_witness :
    (7 ∉ PortsConfig.default.manual_ports) ∧
    ((remove_manual_port (add_manual_port PortsConfig.default 7).1 7).1).manual_ports
      = PortsConfig.default.manual_ports :=
  ⟨by decide, claim_C5_roundtrip_amended PortsConfig.default 7 (by decide)⟩

/-- C6: `set_detected_ports` overwrites both discovered sets with exactly
its arguments and leaves the manual set untouched; in particular after
`set_detected_ports {1} {2}` followed by `set_detected_ports ∅ ∅`,
`all_ports` is exactly the manual set. -/
theorem claim_C6_set_detected_replaces :
    (∀ cfg pm2 caddy,
       (set_detected_ports cfg pm2 caddy).manual_ports = cfg.manual_ports ∧
       (set_detected_ports cfg pm2 caddy).pm2_ports = pm2 ∧
       (set_detected_ports cfg pm2 caddy).caddy_ports = caddy) ∧
    (∀ cfg, all_ports (set_detected_ports (set_detected_ports cfg {1} {2}) ∅ ∅)
       = cfg.manual_ports) := by
  refine ⟨fun cfg pm2 caddy => ⟨rfl, rfl, rfl⟩, fun cfg => ?_⟩
  simp [all_ports, set_detected_ports]

/-! ## C7: combined detection is total and componentwise -/

/-- C7: the combined detection always returns the pair of sets — each
component is its own probe's result with failure collapsed to the empty
set; the pm2 component does not depend on the caddy oracles and vice
versa; and each failure mode (launch failure, nonzero exit, unparsable
output, connection failure, error status, unparsable body) yields the
empty set for that component only. -/
theorem claim_C7_detect_total_independent :
    (∀ pp pj ch cj,
       detect_ports pp pj ch cj =
         ((match detect_pm2_ports pp pj with
           | .ok s => s
           | .error _ => ∅),
          (match detect_caddy_ports ch cj with
           | .ok s => s
           | .error _ => ∅))) ∧
    (∀ pp pj ch cj ch2 cj2,
       (detect_ports pp pj ch cj).1 = (detect_ports pp pj ch2 cj2).1) ∧
    (∀ pp pj pp2 pj2 ch cj,
       (detect_ports pp pj ch cj).2 = (detect_ports pp2 pj2 ch cj).2) ∧
    (∀ pj ch cj, (detect_ports .launchFailed pj ch cj).1 = ∅) ∧
    (∀ out pj ch cj, (detect_ports (.exited false out) pj ch cj).1 = ∅) ∧
    (∀ out ch cj, (detect_ports (.exited true out) (fun _ => none) ch cj).1 = ∅) ∧
    (∀ pp pj cj, (detect_ports pp pj .connectFailed cj).2 = ∅) ∧
    (∀ pp pj body cj, (detect_ports pp pj (.responded false body) cj).2 = ∅) ∧
    (∀ pp pj body, (detect_ports pp pj (.responded true body) (fun _ => none)).2 = ∅) :=
  ⟨fun _ _ _ _ => rfl, fun _ _ _ _ _ _ => rfl, fun _ _ _ _ _ _ => rfl,
   fun _ _ _ => rfl, fun _ _ _ _ => rfl, fun _ _ _ => rfl,
   fun _ _ _ => rfl, fun _ _ _ _ => rfl, fun _ _ _ => rfl⟩

/-! ## C8: registry persistence load -/

/-- C8: loading with no persisted file yields the default registry (all
three sets empty) without error; an unreadable file is a hard error; a
readable file whose content fails to parse is a hard error. -/
theorem claim_C8_load_or_default :
    (∀ parse, load_or_default .missing parse = .ok PortsConfig.default) ∧
    (PortsConfig.default.manual_ports = ∅ ∧ PortsConfig.default.pm2_ports = ∅ ∧
      PortsConfig.default.caddy_ports = ∅) ∧
    (∀ msg parse, load_or_default (.unreadable msg) parse = .error msg) ∧
    (∀ raw parse e, parse raw = .error e →
       load_or_default (.content raw) parse = .error e) := by
  refine ⟨fun parse => rfl, ⟨rfl, rfl, rfl⟩, fun msg parse => rfl, ?_⟩
  intro raw parse e h
  unfold load_or_default
  simp only []
  rw [h]

theorem claim_C8_witness :
    load_or_default (.content "x".toList)
        (fun _ => Except.error "bad toml".toList) = Except.error "bad toml".toList :=
  claim_C8_load_or_default.2.2.2 "x".toList
    (fun _ => Except.error "bad toml".toList) "bad toml".toList rfl

/-! ## C9: zero port arguments are rejected before any I/O -/

/-- C9: for both `cmd_add` and `cmd_remove`, the port argument 0 fails
validation immediately: the result is the validation error and the
recorded effect trace is empty — no config read or write, no probe, no ip
resolution, and no netsh command, regardless of the environment. -/
theorem claim_C9_zero_port_rejected_before_io :
    ∀ env, cmd_add env 0 = (.error "port 0 is invalid".toList, []) ∧
           cmd_remove env 0 = (.error "port 0 is invalid".toList, []) :=
  fun _ => ⟨rfl, rfl⟩

end WslBridge
